import Mathlib

/-!
Verification of the Aurora local LLM inference server
(`src/ui/src-tauri/src/main.rs`, `src/ui/src-tauri/src/session.rs`)
against its natural-language specification.

Each Rust function relevant to the claims is translated into a Lean
definition (shallow embedding): pure computations become Lean functions,
the SQLite session store becomes explicit state passing over lists of
rows, filesystem interaction becomes an explicit filesystem model passed
as input, and times/UUIDs become explicit parameters.
-/

namespace Aurora

/-! ## Log ring buffer (`LogBuffer` in main.rs, lines 52-89)

The Rust struct holds a `VecDeque<(u64, String)>` of entries and a `u64`
counter.  `push` increments the counter, pops the front when the deque
already holds 500 entries, and pushes the new `(id, msg)` pair at the
back.  `tail(limit)` walks the deque from the back, takes `limit`
entries, and reverses them back into chronological order. -/

structure LogBuffer where
  entries : List (Nat × String)
  counter : Nat
deriving DecidableEq

def LogBuffer.new : LogBuffer := ⟨[], 0⟩

def LogBuffer.push (b : LogBuffer) (msg : String) : LogBuffer :=
  let counter := b.counter + 1
  let entries := if 500 ≤ b.entries.length then b.entries.drop 1 else b.entries
  ⟨entries ++ [(counter, msg)], counter⟩

def LogBuffer.tail (b : LogBuffer) (limit : Nat) : List String :=
  (((b.entries.reverse.take limit).map Prod.snd).reverse : List String)

def LogBuffer.pushAll (b : LogBuffer) (msgs : List String) : LogBuffer :=
  msgs.foldl LogBuffer.push b

/-- The `k`-th pushed message paired with its 1-based monotonic counter value. -/
def numbered (msgs : List String) : List (Nat × String) :=
  msgs.enum.map (fun p => (p.1 + 1, p.2))

end Aurora

namespace Aurora

theorem numbered_append_singleton (msgs : List String) (m : String) :
    numbered (msgs ++ [m]) = numbered msgs ++ [(msgs.length + 1, m)] := by
  simp [numbered, List.enum_append]

theorem pushAll_append_singleton (b : LogBuffer) (msgs : List String) (m : String) :
    b.pushAll (msgs ++ [m]) = (b.pushAll msgs).push m := by
  simp [LogBuffer.pushAll]

theorem pushAll_entries (msgs : List String) :
    (LogBuffer.new.pushAll msgs).entries
      = (numbered msgs).drop (msgs.length - 500)
    ∧ (LogBuffer.new.pushAll msgs).counter = msgs.length := by
  induction msgs using List.reverseRecOn with
  | nil => simp [LogBuffer.pushAll, LogBuffer.new, numbered]
  | append_singleton msgs m ih =>
    obtain ⟨ihe, ihc⟩ := ih
    rw [pushAll_append_singleton, numbered_append_singleton]
    have hN : (msgs ++ [m]).length = msgs.length + 1 := by simp
    have hlen : ((numbered msgs).drop (msgs.length - 500)).length
        = msgs.length - (msgs.length - 500) := by simp [numbered]
    have hnum : (numbered msgs).length = msgs.length := by simp [numbered]
    constructor
    · show (if 500 ≤ (LogBuffer.new.pushAll msgs).entries.length then
          (LogBuffer.new.pushAll msgs).entries.drop 1
        else (LogBuffer.new.pushAll msgs).entries)
          ++ [((LogBuffer.new.pushAll msgs).counter + 1, m)] = _
      rw [ihe, ihc, hN]
      by_cases h : 500 ≤ msgs.length
      · rw [if_pos (by omega : 500 ≤ ((numbered msgs).drop (msgs.length - 500)).length)]
        rw [List.drop_drop]
        rw [List.drop_append_of_le_length
          (by omega : msgs.length + 1 - 500 ≤ (numbered msgs).length)]
        have harith : msgs.length - 500 + 1 = msgs.length + 1 - 500 := by omega
        rw [harith]
      · rw [if_neg (by omega : ¬ 500 ≤ ((numbered msgs).drop (msgs.length - 500)).length)]
        have h1 : msgs.length - 500 = 0 := by omega
        have h2 : msgs.length + 1 - 500 = 0 := by omega
        rw [h1, h2]
        simp
    · show (LogBuffer.new.pushAll msgs).counter + 1 = _
      rw [ihc, hN]

theorem tail_eq_drop (b : LogBuffer) (n : Nat) :
    b.tail n = (b.entries.map Prod.snd).drop (b.entries.length - n) := by
  unfold LogBuffer.tail
  rw [← List.map_reverse, ← List.rtake_eq_reverse_take_reverse, List.rtake, List.map_drop]

/-- C6: the log ring buffer never holds more than 500 entries; after any
sequence of `N` pushes it holds exactly the last `min N 500` pushed entries
in insertion order, numbered by the monotonically increasing counter
(entry `k` of the push sequence carries number `k`), and `tail n` returns
the last `min n length` entries in chronological order. -/
theorem log_ring_buffer_spec (msgs : List String) (n : Nat) :
    (LogBuffer.new.pushAll msgs).entries = (numbered msgs).drop (msgs.length - 500)
    ∧ (LogBuffer.new.pushAll msgs).entries.length = min msgs.length 500
    ∧ (LogBuffer.new.pushAll msgs).counter = msgs.length
    ∧ (LogBuffer.new.pushAll msgs).tail n
        = ((LogBuffer.new.pushAll msgs).entries.map Prod.snd).drop
            ((LogBuffer.new.pushAll msgs).entries.length - n) := by
  obtain ⟨he, hc⟩ := pushAll_entries msgs
  refine ⟨he, ?_, hc, tail_eq_drop _ n⟩
  rw [he]
  have hnum : (numbered msgs).length = msgs.length := by simp [numbered]
  simp only [List.length_drop, hnum]
  omega

/-! ## Prompt assembly (`chat_handler` main.rs lines 1364-1376,
`chat_with_session_handler` lines 1940-1952, `generate_handler` line 1478)

`chat_handler` maps each message to `"[ROLE]\n<content>\n"` where the role
tag is `[SYSTEM]` for role `"system"`, `[ASSISTANT]` for `"assistant"`,
and `[USER]` otherwise, collects the pieces into one string
(left-to-right concatenation), and appends the literal `"[ASSISTANT]\n"`.
`generate_handler` passes `body.prompt` to `engine.generate` unchanged. -/

structure ChatMessage where
  role : String
  content : String
deriving DecidableEq

def roleTag (r : String) : String :=
  if r = "system" then "[SYSTEM]"
  else if r = "assistant" then "[ASSISTANT]"
  else "[USER]"

def serializeMessage (m : ChatMessage) : String :=
  roleTag m.role ++ "\n" ++ m.content ++ "\n"

/-- `collect::<String>()` over an iterator of strings: left-to-right
concatenation starting from the empty string. -/
def collectString (l : List String) : String :=
  l.foldl (· ++ ·) ""

/-- The prompt `chat_handler` (and `chat_with_session_handler`) passes to
`engine.generate`. -/
def chatPrompt (msgs : List ChatMessage) : String :=
  collectString (msgs.map serializeMessage) ++ "[ASSISTANT]\n"

/-- The prompt `generate_handler` passes to `engine.generate`: the
request's `prompt` field unchanged. -/
def generatePromptPassed (prompt : String) : String := prompt

/-- The spec's description of chat prompt assembly, written directly from
its words: serialize every message as `"[ROLE]\n<content>\n"` in order,
then append the trailing marker `"[ASSISTANT]\n"`. -/
def specChatPrompt : List ChatMessage → String
  | [] => "[ASSISTANT]\n"
  | m :: rest => serializeMessage m ++ specChatPrompt rest

theorem collectString_from (l : List String) (a : String) :
    l.foldl (· ++ ·) a = a ++ collectString l := by
  induction l generalizing a with
  | nil =>
    show a = a ++ ""
    rw [String.append_empty]
  | cons x xs ih =>
    show xs.foldl (· ++ ·) (a ++ x) = a ++ collectString (x :: xs)
    rw [ih (a ++ x)]
    have hr : collectString (x :: xs) = x ++ collectString xs := by
      show xs.foldl (· ++ ·) ("" ++ x) = _
      rw [ih ("" ++ x)]
      rfl
    rw [hr, String.append_assoc]

/-- C7: for every `/api/chat` request the prompt passed to the engine is
the concatenation over the messages of `"[ROLE]\n<content>\n"` (SYSTEM for
role `"system"`, ASSISTANT for `"assistant"`, USER otherwise) followed by
the literal trailing `"[ASSISTANT]\n"` (stated as equality with the
spec-side definition `specChatPrompt`); `/api/generate` passes the raw
prompt unchanged; and prompt assembly is deterministic: equal message
sequences yield byte-identical prompts. -/
theorem chat_prompt_assembly_spec (msgs : List ChatMessage) :
    chatPrompt msgs = specChatPrompt msgs
    ∧ (∀ p : String, generatePromptPassed p = p)
    ∧ (∀ msgs' : List ChatMessage, msgs = msgs' → chatPrompt msgs = chatPrompt msgs') := by
  refine ⟨?_, fun p => rfl, fun msgs' h => by rw [h]⟩
  induction msgs with
  | nil => rfl
  | cons m rest ih =>
    have hr : collectString (serializeMessage m :: rest.map serializeMessage)
        = serializeMessage m ++ collectString (rest.map serializeMessage) := by
      show (rest.map serializeMessage).foldl (· ++ ·) ("" ++ serializeMessage m) = _
      rw [collectString_from]
      rfl
    show collectString (serializeMessage m :: rest.map serializeMessage) ++ "[ASSISTANT]\n"
        = serializeMessage m ++ specChatPrompt rest
    rw [hr, ← ih, chatPrompt, String.append_assoc]

/-! ## Session store (`session.rs`)

The SQLite store is embedded as explicit lists of rows.  Timestamps
(`Utc::now().to_rfc3339()`) become `Nat` parameters supplied by the
caller; the `uuid::Uuid::new_v4()` of `create_session` becomes an
explicit `id` parameter (theorems about it carry freshness hypotheses,
the idealization of v4 UUID generation).  `messages.id` is
`INTEGER PRIMARY KEY AUTOINCREMENT`: ids are handed out by a monotone
counter and never reused, modelled by `nextMsgId`.  The declared
`FOREIGN KEY (session_id) REFERENCES sessions(id)` is not enforced:
SQLite leaves foreign keys off unless `PRAGMA foreign_keys = ON` is
executed, and `SessionStore::new` never executes it, so inserting a
message for an absent session succeeds. -/

structure SessionRow where
  id : String
  created_at : Nat
  updated_at : Nat
  model : Option String
  title : Option String
  message_count : Nat
deriving DecidableEq

structure MessageRow where
  id : Nat
  session_id : String
  role : String
  content : String
  created_at : Nat
  metadata : Option String
deriving DecidableEq

structure SStore where
  sessions : List SessionRow
  messages : List MessageRow
  nextMsgId : Nat
deriving DecidableEq

def SStore.empty : SStore := ⟨[], [], 1⟩

def SStore.sessionIds (st : SStore) : List String := st.sessions.map (·.id)

/-- `create_session` (session.rs lines 134-152): INSERT a fresh row with
`message_count = 0` and `created_at = updated_at = now`.  The `INSERT`
fails on a duplicate primary key, in which case the store is unchanged
(the handler surfaces the error). -/
def SStore.createSession (st : SStore) (id : String) (model title : Option String)
    (now : Nat) : SStore :=
  if id ∈ st.sessionIds then st
  else { st with sessions := st.sessions ++ [⟨id, now, now, model, title, 0⟩] }

/-- `get_session` (session.rs lines 155-173): SELECT by primary key. -/
def SStore.getSession (st : SStore) (id : String) : Option SessionRow :=
  st.sessions.find? (·.id = id)

/-- `add_message` (session.rs lines 223-254): INSERT the message row, then
UPDATE the session row's `message_count` and `updated_at` (a no-op when no
session has that id).  Returns the `SessionMessage` the Rust function
returns together with the new store. -/
def SStore.addMessage (st : SStore) (sid role content : String)
    (metadata : Option String) (now : Nat) : MessageRow × SStore :=
  let msg : MessageRow := ⟨st.nextMsgId, sid, role, content, now, metadata⟩
  (msg,
    { sessions := st.sessions.map (fun s =>
        if s.id = sid then { s with message_count := s.message_count + 1, updated_at := now }
        else s)
      messages := st.messages ++ [msg]
      nextMsgId := st.nextMsgId + 1 })

/-- `delete_session` (session.rs lines 200-208): DELETE the messages of
the session, then the session row; returns whether a row was deleted. -/
def SStore.deleteSession (st : SStore) (sid : String) : Bool × SStore :=
  (st.sessions.any (·.id = sid),
    { st with
      sessions := st.sessions.filter (fun s => ¬ s.id = sid)
      messages := st.messages.filter (fun m => ¬ m.session_id = sid) })

/-- `clear_all_sessions` (session.rs lines 211-216): DELETE every message
and every session. -/
def SStore.clearAllSessions (st : SStore) : SStore :=
  { st with sessions := [], messages := [] }

/-- `update_session_title` (session.rs lines 418-425). -/
def SStore.updateSessionTitle (st : SStore) (sid title : String) (now : Nat) : SStore :=
  { st with sessions := st.sessions.map (fun s =>
      if s.id = sid then { s with title := some title, updated_at := now } else s) }

/-- `update_session_model` (session.rs lines 428-435). -/
def SStore.updateSessionModel (st : SStore) (sid model : String) (now : Nat) : SStore :=
  { st with sessions := st.sessions.map (fun s =>
      if s.id = sid then { s with model := some model, updated_at := now } else s) }

/-- `get_messages` (session.rs lines 257-278): the session's messages in
ascending `created_at` order (`ORDER BY created_at ASC`; ties resolved by
a stable sort over the table order). -/
def SStore.getMessages (st : SStore) (sid : String) : List MessageRow :=
  (st.messages.filter (fun m => m.session_id = sid)).mergeSort
    (fun a b => a.created_at ≤ b.created_at)

/-- The number of message rows whose `session_id` is `sid`. -/
def SStore.msgCount (st : SStore) (sid : String) : Nat :=
  (st.messages.filter (fun m => m.session_id = sid)).length

/-- The session-count invariant of the spec: session ids are unique
(PRIMARY KEY) and every session's `message_count` equals the number of
message rows carrying its id. -/
def SStore.Inv (st : SStore) : Prop :=
  st.sessionIds.Nodup ∧ ∀ s ∈ st.sessions, s.message_count = st.msgCount s.id

instance (st : SStore) : Decidable st.Inv := by
  unfold SStore.Inv
  infer_instance

/-- The session-store operations reachable through the HTTP API. -/
inductive SOp where
  | create (id : String) (model title : Option String) (now : Nat)
  | addMsg (sid role content : String) (metadata : Option String) (now : Nat)
  | delete (sid : String)
  | clearAll
  | setTitle (sid title : String) (now : Nat)
  | setModel (sid model : String) (now : Nat)
deriving DecidableEq

def SStore.applyOp (st : SStore) : SOp → SStore
  | .create id model title now => st.createSession id model title now
  | .addMsg sid role content metadata now => (st.addMessage sid role content metadata now).2
  | .delete sid => (st.deleteSession sid).2
  | .clearAll => st.clearAllSessions
  | .setTitle sid title now => st.updateSessionTitle sid title now
  | .setModel sid model now => st.updateSessionModel sid model now

def SStore.applyOps (st : SStore) (ops : List SOp) : SStore :=
  ops.foldl SStore.applyOp st

/-- Freshness check for the generated UUIDs of a trace, carrying the set
`seen` of session-id strings already passed to `add_message`: every
`create_session` id must avoid the ids used by earlier `add_message`
calls.  This is the idealization of v4 UUID generation (a random 122-bit
id does not collide with previously seen caller-chosen strings). -/
def freshAuxB (seen : List String) : List SOp → Bool
  | [] => true
  | .create id _ _ _ :: rest => !(seen.contains id) && freshAuxB seen rest
  | .addMsg sid _ _ _ _ :: rest => freshAuxB (sid :: seen) rest
  | _ :: rest => freshAuxB seen rest

def FreshCreates (ops : List SOp) : Prop :=
  freshAuxB [] ops = true

instance (ops : List SOp) : Decidable (FreshCreates ops) :=
  inferInstanceAs (Decidable (freshAuxB [] ops = true))

theorem msgCount_messages_eq {st st' : SStore} (h : st'.messages = st.messages)
    (u : String) : st'.msgCount u = st.msgCount u := by
  unfold SStore.msgCount
  rw [h]

theorem inv_createSession (st : SStore) (id : String) (model title : Option String)
    (now : Nat) (hinv : st.Inv) (h0 : st.msgCount id = 0) :
    (st.createSession id model title now).Inv := by
  unfold SStore.createSession
  by_cases h : id ∈ st.sessionIds
  · simpa [h] using hinv
  · rw [if_neg h]
    obtain ⟨hnd, hcnt⟩ := hinv
    constructor
    · show ((st.sessions ++ [(⟨id, now, now, model, title, 0⟩ : SessionRow)]).map (·.id)).Nodup
      rw [List.map_append, List.nodup_append]
      refine ⟨hnd, List.nodup_singleton _, ?_⟩
      intro a ha hb
      have : a = id := by simpa using hb
      subst this
      exact h ha
    · intro s hs
      rcases List.mem_append.mp hs with hs | hs
      · exact hcnt s hs
      · simp only [List.mem_singleton] at hs
        subst hs
        exact h0.symm

theorem map_update_sessionIds (l : List SessionRow) (f : SessionRow → SessionRow)
    (hf : ∀ s ∈ l, (f s).id = s.id) : (l.map f).map (·.id) = l.map (·.id) := by
  rw [List.map_map]
  exact List.map_congr_left (fun s hs => hf s hs)

theorem msgCount_addMessage (st : SStore) (sid role content : String)
    (md : Option String) (now : Nat) (u : String) :
    (st.addMessage sid role content md now).2.msgCount u
      = st.msgCount u + (if sid = u then 1 else 0) := by
  unfold SStore.msgCount SStore.addMessage
  simp only [List.filter_append, List.length_append]
  congr 1
  by_cases h : sid = u <;> simp [List.filter_cons, h]

theorem msgCount_deleteSession (st : SStore) (sid u : String) :
    (st.deleteSession sid).2.msgCount u = if u = sid then 0 else st.msgCount u := by
  unfold SStore.msgCount SStore.deleteSession
  simp only [List.filter_filter]
  by_cases h : u = sid
  · subst h
    rw [if_pos rfl]
    have : ∀ m ∈ st.messages,
        ¬ ((decide (m.session_id = u) && decide (¬ m.session_id = u)) = true) := by
      intro m _
      simp
    rw [List.filter_eq_nil_iff.mpr this]
    rfl
  · rw [if_neg h]
    congr 1
    apply List.filter_congr
    intro m _
    by_cases hm : m.session_id = u
    · simp [hm, h]
    · simp [hm]

theorem inv_addMessage (st : SStore) (sid role content : String) (md : Option String)
    (now : Nat) (hinv : st.Inv) :
    (st.addMessage sid role content md now).2.Inv := by
  obtain ⟨hnd, hcnt⟩ := hinv
  have hids : (st.addMessage sid role content md now).2.sessionIds = st.sessionIds := by
    show (st.sessions.map fun s => if s.id = sid then
        { s with message_count := s.message_count + 1, updated_at := now }
      else s).map (·.id) = st.sessions.map (·.id)
    exact map_update_sessionIds _ _ (fun s _ => by by_cases h : s.id = sid <;> simp [h])
  refine ⟨by rw [hids]; exact hnd, ?_⟩
  intro s' hs'
  rcases List.mem_map.mp hs' with ⟨s, hs, hfs⟩
  subst hfs
  rw [msgCount_addMessage]
  by_cases h : s.id = sid
  · rw [if_pos h]
    show s.message_count + 1 = st.msgCount s.id + (if sid = s.id then 1 else 0)
    rw [if_pos h.symm, hcnt s hs]
  · rw [if_neg h]
    show s.message_count = st.msgCount s.id + (if sid = s.id then 1 else 0)
    rw [if_neg (fun hc => h hc.symm), Nat.add_zero]
    exact hcnt s hs

theorem inv_deleteSession (st : SStore) (sid : String) (hinv : st.Inv) :
    (st.deleteSession sid).2.Inv := by
  obtain ⟨hnd, hcnt⟩ := hinv
  constructor
  · show ((st.sessions.filter fun s => ¬ s.id = sid).map (·.id)).Nodup
    exact List.Nodup.sublist (List.Sublist.map _ (List.filter_sublist _)) hnd
  · intro s hs
    have hmem := (List.mem_filter.mp hs).1
    have hpred := (List.mem_filter.mp hs).2
    have hne : ¬ s.id = sid := by simpa using hpred
    rw [msgCount_deleteSession, if_neg hne]
    exact hcnt s hmem

theorem inv_clearAll (st : SStore) : st.clearAllSessions.Inv := by
  constructor
  · show (([] : List SessionRow).map (·.id)).Nodup
    simp
  · intro s hs
    simp [SStore.clearAllSessions] at hs

theorem inv_updateTitle (st : SStore) (sid title : String) (now : Nat) (hinv : st.Inv) :
    (st.updateSessionTitle sid title now).Inv := by
  obtain ⟨hnd, hcnt⟩ := hinv
  have hids : (st.updateSessionTitle sid title now).sessionIds = st.sessionIds := by
    show (st.sessions.map fun s => if s.id = sid then
        { s with title := some title, updated_at := now }
      else s).map (·.id) = st.sessions.map (·.id)
    exact map_update_sessionIds _ _ (fun s _ => by by_cases h : s.id = sid <;> simp [h])
  refine ⟨by rw [hids]; exact hnd, ?_⟩
  intro s' hs'
  rcases List.mem_map.mp hs' with ⟨s, hs, hfs⟩
  subst hfs
  have hmsg : (st.updateSessionTitle sid title now).messages = st.messages := rfl
  have key : s.message_count = (st.updateSessionTitle sid title now).msgCount s.id := by
    rw [msgCount_messages_eq hmsg]
    exact hcnt s hs
  by_cases h : s.id = sid
  · rw [if_pos h]
    exact key
  · rw [if_neg h]
    exact key

theorem inv_updateModel (st : SStore) (sid model : String) (now : Nat) (hinv : st.Inv) :
    (st.updateSessionModel sid model now).Inv := by
  obtain ⟨hnd, hcnt⟩ := hinv
  have hids : (st.updateSessionModel sid model now).sessionIds = st.sessionIds := by
    show (st.sessions.map fun s => if s.id = sid then
        { s with model := some model, updated_at := now }
      else s).map (·.id) = st.sessions.map (·.id)
    exact map_update_sessionIds _ _ (fun s _ => by by_cases h : s.id = sid <;> simp [h])
  refine ⟨by rw [hids]; exact hnd, ?_⟩
  intro s' hs'
  rcases List.mem_map.mp hs' with ⟨s, hs, hfs⟩
  subst hfs
  have hmsg : (st.updateSessionModel sid model now).messages = st.messages := rfl
  have key : s.message_count = (st.updateSessionModel sid model now).msgCount s.id := by
    rw [msgCount_messages_eq hmsg]
    exact hcnt s hs
  by_cases h : s.id = sid
  · rw [if_pos h]
    exact key
  · rw [if_neg h]
    exact key

theorem msgCount_applyOp_zero (st : SStore) (op : SOp) (u : String)
    (h0 : st.msgCount u = 0)
    (hop : ∀ sid role content md now, op = SOp.addMsg sid role content md now → ¬ u = sid) :
    (st.applyOp op).msgCount u = 0 := by
  cases op with
  | create id model title now =>
    show (st.createSession id model title now).msgCount u = 0
    unfold SStore.createSession
    by_cases h : id ∈ st.sessionIds
    · rw [if_pos h]; exact h0
    · rw [if_neg h]
      exact (msgCount_messages_eq rfl u).trans h0
  | addMsg sid role content md now =>
    show (st.addMessage sid role content md now).2.msgCount u = 0
    rw [msgCount_addMessage, h0,
      if_neg (fun hc => hop sid role content md now rfl hc.symm)]
  | delete sid =>
    show (st.deleteSession sid).2.msgCount u = 0
    rw [msgCount_deleteSession]
    by_cases h : u = sid
    · rw [if_pos h]
    · rw [if_neg h]; exact h0
  | clearAll =>
    show st.clearAllSessions.msgCount u = 0
    rfl
  | setTitle sid title now =>
    exact (msgCount_messages_eq rfl u).trans h0
  | setModel sid model now =>
    exact (msgCount_messages_eq rfl u).trans h0

theorem inv_applyOp (st : SStore) (op : SOp) (hinv : st.Inv)
    (hcreate : ∀ id model title now, op = SOp.create id model title now → st.msgCount id = 0) :
    (st.applyOp op).Inv := by
  cases op with
  | create id model title now =>
    exact inv_createSession st id model title now hinv (hcreate id model title now rfl)
  | addMsg sid role content md now => exact inv_addMessage st sid role content md now hinv
  | delete sid => exact inv_deleteSession st sid hinv
  | clearAll => exact inv_clearAll st
  | setTitle sid title now => exact inv_updateTitle st sid title now hinv
  | setModel sid model now => exact inv_updateModel st sid model now hinv

theorem messages_createSession (st : SStore) (id : String) (model title : Option String)
    (now : Nat) : (st.createSession id model title now).messages = st.messages := by
  unfold SStore.createSession
  split <;> rfl

theorem inv_applyOps_strong (ops : List SOp) (st : SStore) (seen : List String)
    (hinv : st.Inv) (hseen : ∀ u, u ∉ seen → st.msgCount u = 0)
    (hfresh : freshAuxB seen ops = true) :
    (st.applyOps ops).Inv := by
  induction ops generalizing st seen with
  | nil => exact hinv
  | cons op rest ih =>
    show ((st.applyOp op).applyOps rest).Inv
    cases op with
    | create id model title now =>
      have hsplit : (!(seen.contains id)) = true ∧ freshAuxB seen rest = true := by
        simpa [freshAuxB, Bool.and_eq_true] using hfresh
      have hid : id ∉ seen := by simpa using hsplit.1
      refine ih _ seen (inv_createSession st id model title now hinv (hseen id hid)) ?_ hsplit.2
      intro u hu
      show (st.createSession id model title now).msgCount u = 0
      rw [msgCount_messages_eq (messages_createSession st id model title now) u]
      exact hseen u hu
    | addMsg sid role content md now =>
      have hfresh' : freshAuxB (sid :: seen) rest = true := by
        simpa [freshAuxB] using hfresh
      refine ih _ (sid :: seen) (inv_addMessage st sid role content md now hinv) ?_ hfresh'
      intro u hu
      have hune : ¬ sid = u := fun hc => hu (by rw [hc]; exact List.mem_cons_self _ _)
      have hu' : u ∉ seen := fun hc => hu (List.mem_cons_of_mem _ hc)
      show (st.addMessage sid role content md now).2.msgCount u = 0
      rw [msgCount_addMessage, hseen u hu', if_neg hune]
    | delete sid =>
      have hfresh' : freshAuxB seen rest = true := by simpa [freshAuxB] using hfresh
      refine ih _ seen (inv_deleteSession st sid hinv) ?_ hfresh'
      intro u hu
      show (st.deleteSession sid).2.msgCount u = 0
      rw [msgCount_deleteSession]
      by_cases h : u = sid
      · rw [if_pos h]
      · rw [if_neg h]; exact hseen u hu
    | clearAll =>
      have hfresh' : freshAuxB seen rest = true := by simpa [freshAuxB] using hfresh
      exact ih _ seen (inv_clearAll st) (fun u _ => rfl) hfresh'
    | setTitle sid title now =>
      have hfresh' : freshAuxB seen rest = true := by simpa [freshAuxB] using hfresh
      refine ih _ seen (inv_updateTitle st sid title now hinv) ?_ hfresh'
      intro u hu
      exact (msgCount_messages_eq rfl u).trans (hseen u hu)
    | setModel sid model now =>
      have hfresh' : freshAuxB seen rest = true := by simpa [freshAuxB] using hfresh
      refine ih _ seen (inv_updateModel st sid model now hinv) ?_ hfresh'
      intro u hu
      exact (msgCount_messages_eq rfl u).trans (hseen u hu)

theorem find?_map_update (sid : String) (now : Nat) (s : SessionRow) (l : List SessionRow)
    (h : l.find? (fun t => t.id = sid) = some s) :
    (l.map fun t => if t.id = sid then
        { t with message_count := t.message_count + 1, updated_at := now }
      else t).find? (fun t => t.id = sid)
      = some { s with message_count := s.message_count + 1, updated_at := now } := by
  induction l with
  | nil => simp at h
  | cons t ts ih =>
    rw [List.map_cons]
    by_cases ht : t.id = sid
    · rw [List.find?_cons_of_pos _ (by simp [ht])] at h
      injection h with hst
      subst hst
      rw [if_pos ht, List.find?_cons_of_pos _ (by simp [ht])]
    · rw [List.find?_cons_of_neg _ (by simp [ht])] at h
      rw [if_neg ht, List.find?_cons_of_neg _ (by simp [ht])]
      exact ih h

theorem getSession_addMessage (st : SStore) (s : SessionRow) (sid role content : String)
    (md : Option String) (now : Nat) (hs : st.getSession sid = some s) :
    (st.addMessage sid role content md now).2.getSession sid
      = some { s with message_count := s.message_count + 1, updated_at := now } := by
  exact find?_map_update sid now s st.sessions hs

/-- C4: after any sequence of session-store operations whose
`create_session` UUIDs are fresh (no create id collides with a session id
passed to `add_message` — the idealization of random v4 UUIDs), every
session present in the store has `message_count` equal to the number of
message rows carrying its id; and a read of the session immediately after
`add_message` observes the incremented count (and the new `updated_at`). -/
theorem session_message_count_invariant (ops : List SOp) (hfresh : FreshCreates ops) :
    (SStore.empty.applyOps ops).Inv
    ∧ (∀ (st : SStore) (s : SessionRow) (sid role content : String)
        (md : Option String) (now : Nat),
        st.getSession sid = some s →
        (st.addMessage sid role content md now).2.getSession sid
          = some { s with message_count := s.message_count + 1, updated_at := now }) := by
  constructor
  · exact inv_applyOps_strong ops SStore.empty []
      ⟨List.nodup_nil, fun s hs => by simp [SStore.empty] at hs⟩
      (fun u _ => rfl) hfresh
  · intro st s sid role content md now hs
    exact getSession_addMessage st s sid role content md now hs

/-- Witness for C4 at a concrete trace: create a session `"A"`, add two
messages to it, and check the invariant and the incremented-count read. -/
theorem session_message_count_invariant_witness :
    FreshCreates [SOp.create "A" (some "m") none 1,
        SOp.addMsg "A" "user" "hi" none 2, SOp.addMsg "A" "assistant" "hello" none 3]
    ∧ (SStore.empty.applyOps [SOp.create "A" (some "m") none 1,
        SOp.addMsg "A" "user" "hi" none 2, SOp.addMsg "A" "assistant" "hello" none 3]).Inv
    ∧ ((⟨[⟨"A", 1, 1, some "m", none, 0⟩], [], 1⟩ : SStore).addMessage
        "A" "user" "hi" none 2).2.getSession "A"
        = some ⟨"A", 1, 2, some "m", none, 1⟩ := by
  refine ⟨by decide, (session_message_count_invariant _ (by decide)).1, ?_⟩
  exact (session_message_count_invariant [] (by decide)).2
    ⟨[⟨"A", 1, 1, some "m", none, 0⟩], [], 1⟩ ⟨"A", 1, 1, some "m", none, 0⟩
    "A" "user" "hi" none 2 (by decide)

/-- The get-or-create step of `chat_with_session_handler` (main.rs lines
1848-1869): a supplied id that exists is used as is; a supplied id that is
unknown, or no supplied id, leads to `create_session(Some(&model_name),
None)` with a fresh UUID, whose id is used instead. -/
def resolveSession (st : SStore) (suppliedId : Option String) (freshId : String)
    (modelName : String) (now : Nat) : String × SStore :=
  match suppliedId with
  | some id =>
    match st.getSession id with
    | some _ => (id, st)
    | none => (freshId, st.createSession freshId (some modelName) none now)
  | none => (freshId, st.createSession freshId (some modelName) none now)

theorem getSession_createSession_fresh (st : SStore) (freshId : String)
    (model title : Option String) (now : Nat) (hfresh : freshId ∉ st.sessionIds) :
    (st.createSession freshId model title now).getSession freshId
      = some ⟨freshId, now, now, model, title, 0⟩ := by
  unfold SStore.createSession
  rw [if_neg hfresh]
  show (st.sessions ++ [(⟨freshId, now, now, model, title, 0⟩ : SessionRow)]).find?
    (fun t => t.id = freshId) = _
  rw [List.find?_append]
  have hnone : st.sessions.find? (fun t => t.id = freshId) = none := by
    rw [List.find?_eq_none]
    intro s hs
    simp only [decide_eq_true_eq]
    exact fun hc => hfresh (hc ▸ List.mem_map_of_mem (·.id) hs)
  rw [hnone]
  rw [List.find?_cons_of_pos _ (by simp)]
  rfl

/-- C9: a `POST /api/chat/session` request supplying a `session_id` that
does not exist in the store does not get not-found: the handler creates a
new session with a fresh UUID (fresh with respect to the store and
distinct from the supplied string) and uses — and returns — that fresh id
in place of the supplied one. -/
theorem chat_session_unknown_id_creates (st : SStore)
    (suppliedId freshId modelName : String) (now : Nat)
    (hunknown : st.getSession suppliedId = none)
    (hfresh : freshId ∉ st.sessionIds) (hne : freshId ≠ suppliedId) :
    (resolveSession st (some suppliedId) freshId modelName now).1 = freshId
    ∧ (resolveSession st (some suppliedId) freshId modelName now).1 ≠ suppliedId
    ∧ (resolveSession st (some suppliedId) freshId modelName now).2.getSession freshId
        = some ⟨freshId, now, now, some modelName, none, 0⟩ := by
  simp only [resolveSession]
  rw [hunknown]
  exact ⟨rfl, hne, getSession_createSession_fresh st freshId (some modelName) none now hfresh⟩

/-- Witness for C9: a store holding one session `"A"`; the caller supplies
the unknown id `"B"`; the fresh UUID is `"u-1"`. -/
theorem chat_session_unknown_id_creates_witness :
    (⟨[⟨"A", 1, 1, none, none, 0⟩], [], 1⟩ : SStore).getSession "B" = none
    ∧ ("u-1" ∉ (⟨[⟨"A", 1, 1, none, none, 0⟩], [], 1⟩ : SStore).sessionIds)
    ∧ ((resolveSession ⟨[⟨"A", 1, 1, none, none, 0⟩], [], 1⟩ (some "B") "u-1" "m" 2).1 = "u-1"
      ∧ (resolveSession ⟨[⟨"A", 1, 1, none, none, 0⟩], [], 1⟩ (some "B") "u-1" "m" 2).1 ≠ "B"
      ∧ (resolveSession ⟨[⟨"A", 1, 1, none, none, 0⟩], [], 1⟩ (some "B") "u-1" "m" 2).2.getSession "u-1"
          = some ⟨"u-1", 2, 2, some "m", none, 0⟩) := by
  refine ⟨by decide, by decide, ?_⟩
  exact chat_session_unknown_id_creates ⟨[⟨"A", 1, 1, none, none, 0⟩], [], 1⟩
    "B" "u-1" "m" 2 (by decide) (by decide) (by decide)

/-- C10: a `POST /api/sessions/:id/messages` request for a session id that
is absent from the sessions table still succeeds: the message row is
inserted carrying that session id, no existing session row changes (in
particular no `message_count` or `updated_at`), and the inserted message
is thereafter returned by `GET /api/sessions/:id/messages`
(`get_messages`) for that id, even though the session does not exist. -/
theorem add_message_unknown_session (st : SStore) (sid role content : String)
    (md : Option String) (now : Nat) (h : sid ∉ st.sessionIds) :
    (st.addMessage sid role content md now).1.session_id = sid
    ∧ (st.addMessage sid role content md now).2.sessions = st.sessions
    ∧ (st.addMessage sid role content md now).2.messages
        = st.messages ++ [(st.addMessage sid role content md now).1]
    ∧ (st.addMessage sid role content md now).1
        ∈ (st.addMessage sid role content md now).2.getMessages sid := by
  refine ⟨by rfl, ?_, by rfl, ?_⟩
  · show st.sessions.map (fun s => if s.id = sid then
        { s with message_count := s.message_count + 1, updated_at := now }
      else s) = st.sessions
    have hcong : ∀ s ∈ st.sessions, (if s.id = sid then
        ({ s with message_count := s.message_count + 1, updated_at := now } : SessionRow)
      else s) = id s := by
      intro s hs
      rw [if_neg (fun hc => h (by rw [← hc]; exact List.mem_map_of_mem (·.id) hs))]
      rfl
    rw [List.map_congr_left hcong, List.map_id]
  · have hmem : (st.addMessage sid role content md now).1
        ∈ (st.addMessage sid role content md now).2.messages.filter
          (fun m => m.session_id = sid) := by
      apply List.mem_filter.mpr
      refine ⟨List.mem_append_right _ (List.mem_singleton_self _), by simp [SStore.addMessage]⟩
    exact ((List.mergeSort_perm _ _).mem_iff).mpr hmem

/-- Witness for C10: an empty store and the absent session id `"ghost"`. -/
theorem add_message_unknown_session_witness :
    ("ghost" ∉ SStore.empty.sessionIds)
    ∧ ((SStore.empty.addMessage "ghost" "user" "hi" none 5).1.session_id = "ghost"
      ∧ (SStore.empty.addMessage "ghost" "user" "hi" none 5).2.sessions = SStore.empty.sessions
      ∧ (SStore.empty.addMessage "ghost" "user" "hi" none 5).2.messages
          = SStore.empty.messages ++ [(SStore.empty.addMessage "ghost" "user" "hi" none 5).1]
      ∧ (SStore.empty.addMessage "ghost" "user" "hi" none 5).1
          ∈ (SStore.empty.addMessage "ghost" "user" "hi" none 5).2.getMessages "ghost") := by
  refine ⟨by decide, ?_⟩
  exact add_message_unknown_session SStore.empty "ghost" "user" "hi" none 5 (by decide)


/-! ## Shard expansion of the pull worker (`download_model`, main.rs
lines 2196-2239)

`download_model` builds the list of `(file, url)` pairs to fetch: a
`direct_url` gives the single pair `(filename, url)`; otherwise the
filename is matched against the regex
`^(?P<prefix>.+)-00001-of-(?P<total>\d+)\.gguf$` and, on a match, the
`total` capture is parsed as `u32` (the `?` aborts the whole pull on
overflow) and the files `{prefix}-{i:05}-of-{total:05}.gguf` for
`i = 1..=total` are generated with their URLs; otherwise the single
filename is fetched.  The regex is embedded below: `.` matches any char
except newline, the prefix is greedy (longest first), `\d+` is a maximal
nonempty digit run. -/

def isDigitChar (c : Char) : Bool := ('0' ≤ c) && (c ≤ '9')

def digitVal (c : Char) : Nat := c.toNat - 48

def parseDigits (cs : List Char) : Nat :=
  cs.foldl (fun a c => a * 10 + digitVal c) 0

/-- Decimal digits of `n`, most significant first (the rendering used by
Rust's `{}`/`{:05}` formatting). -/
def natChars (n : Nat) : List Char :=
  if h : n < 10 then [Char.ofNat (48 + n)]
  else natChars (n / 10) ++ [Char.ofNat (48 + n % 10)]
decreasing_by exact Nat.div_lt_self (by omega) (by omega)

/-- Rust `format!("{:05}", n)`: left-pad the decimal rendering with zeros
to a minimum width of 5. -/
def pad5 (n : Nat) : String :=
  ⟨List.replicate (5 - (natChars n).length) '0' ++ natChars n⟩

/-- `format!("{}-{:05}-of-{:05}.gguf", prefix, i, total)`. -/
def shardName (pre : String) (total i : Nat) : String :=
  pre ++ "-" ++ pad5 i ++ "-of-" ++ pad5 total ++ ".gguf"

/-- `https://huggingface.co/{repo_id}/resolve/main/[{subfolder}/]{file}`. -/
def shardUrl (repoId : String) (subfolder : Option String) (file : String) : String :=
  match subfolder with
  | some sf => "https://huggingface.co/" ++ repoId ++ "/resolve/main/" ++ sf ++ "/" ++ file
  | none => "https://huggingface.co/" ++ repoId ++ "/resolve/main/" ++ file

/-- One candidate split of the anchored regex at prefix length `k`:
the prefix is the first `k` chars (nonempty, no newline), followed by the
literal `-00001-of-`, a nonempty maximal digit run (the `total` capture,
returned parsed), and the literal `.gguf`. -/
def shardCheck (cs : List Char) (k : Nat) : Option (String × Nat) :=
  let pre := cs.take k
  let rest := cs.drop k
  if k = 0 then none
  else if pre.any (· = '\n') then none
  else if rest.take 10 = "-00001-of-".toList then
    let rest2 := rest.drop 10
    let digits := rest2.takeWhile isDigitChar
    let dtail := rest2.dropWhile isDigitChar
    if digits ≠ [] ∧ dtail = ".gguf".toList then some (⟨pre⟩, parseDigits digits)
    else none
  else none

/-- `Regex::captures` for `^(?P<prefix>.+)-00001-of-(?P<total>\d+)\.gguf$`:
the greedy `.+` takes the longest prefix that lets the rest of the
pattern match. -/
def shardMatch (s : String) : Option (String × Nat) :=
  ((List.range s.length).reverse).findSome? (shardCheck s.data)

def u32Max : Nat := 4294967295

/-- The `files_to_download` list of `download_model`; `.error` models the
`?`-propagated failure of `parse::<u32>()` on an overflowing total (the
pull aborts before downloading anything). -/
def filesToDownload (repoId filename : String) (subfolder : Option String)
    (directUrl : Option String) : Except Unit (List (String × String)) :=
  match directUrl with
  | some url => .ok [(filename, url)]
  | none =>
    match shardMatch filename with
    | some (pre, total) =>
      if total ≤ u32Max then
        .ok ((List.range' 1 total).map
          (fun i => (shardName pre total i, shardUrl repoId subfolder (shardName pre total i))))
      else .error ()
    | none => .ok [(filename, shardUrl repoId subfolder filename)]

theorem digitVal_ofNat (m : Nat) (hm : m < 10) : digitVal (Char.ofNat (48 + m)) = m := by
  interval_cases m <;> decide

theorem parseDigits_append_singleton (cs : List Char) (c : Char) :
    parseDigits (cs ++ [c]) = parseDigits cs * 10 + digitVal c := by
  unfold parseDigits
  rw [List.foldl_append]
  rfl

theorem parseDigits_natChars (n : Nat) : parseDigits (natChars n) = n := by
  induction n using Nat.strong_induction_on with
  | _ n ih =>
    unfold natChars
    by_cases h : n < 10
    · rw [dif_pos h]
      show parseDigits [Char.ofNat (48 + n)] = n
      show 0 * 10 + digitVal (Char.ofNat (48 + n)) = n
      rw [digitVal_ofNat n h]
      omega
    · rw [dif_neg h]
      rw [parseDigits_append_singleton]
      rw [ih (n / 10) (Nat.div_lt_self (by omega) (by omega))]
      rw [digitVal_ofNat (n % 10) (Nat.mod_lt _ (by omega))]
      omega

theorem parseDigits_replicate_zero (k : Nat) (cs : List Char) :
    parseDigits (List.replicate k '0' ++ cs) = parseDigits cs := by
  induction k with
  | zero => rfl
  | succ k ih =>
    rw [List.replicate_succ, List.cons_append]
    exact ih

theorem parseDigits_pad5 (n : Nat) : parseDigits (pad5 n).data = n := by
  show parseDigits (List.replicate (5 - (natChars n).length) '0' ++ natChars n) = n
  rw [parseDigits_replicate_zero, parseDigits_natChars]

theorem pad5_injective : Function.Injective pad5 := by
  intro a b h
  have hd : parseDigits (pad5 a).data = parseDigits (pad5 b).data := by rw [h]
  rwa [parseDigits_pad5, parseDigits_pad5] at hd

theorem shardName_injective (pre : String) (total : Nat) :
    Function.Injective (shardName pre total) := by
  intro i j h
  have hd := congrArg String.data h
  simp only [shardName, String.data_append, List.append_assoc] at hd
  have h1 := List.append_cancel_left hd
  have h2 := List.append_cancel_left h1
  have h3 := List.append_cancel_right h2
  exact pad5_injective (String.ext h3)

/-- C5 (amended): for a pull without `direct_url` whose filename matches
`<prefix>-00001-of-<NNNNN>.gguf` with a total that fits in `u32`, the
planned download set is exactly `{<prefix>-<i>-of-<NNNNN>.gguf : 1 ≤ i ≤
NNNNN}` with zero-padded indices — a bijection with that index range
(pairwise-distinct names, one per index, every index hit); a `direct_url`
bypasses expansion and downloads exactly that single URL to `filename`. -/
theorem shard_expansion_spec (repoId filename : String) (subfolder : Option String)
    (pre : String) (total : Nat)
    (hmatch : shardMatch filename = some (pre, total)) (hfit : total ≤ u32Max) :
    filesToDownload repoId filename subfolder none
      = .ok ((List.range' 1 total).map
          (fun i => (shardName pre total i, shardUrl repoId subfolder (shardName pre total i))))
    ∧ (((List.range' 1 total).map
          (fun i => (shardName pre total i, shardUrl repoId subfolder (shardName pre total i)))).map
        Prod.fst).Nodup
    ∧ ((List.range' 1 total).map
        (fun i => (shardName pre total i, shardUrl repoId subfolder (shardName pre total i)))).length
        = total
    ∧ (∀ i, 1 ≤ i → i ≤ total →
        shardName pre total i
          ∈ ((List.range' 1 total).map
              (fun i => (shardName pre total i,
                shardUrl repoId subfolder (shardName pre total i)))).map Prod.fst)
    ∧ (∀ url fn : String, filesToDownload repoId fn subfolder (some url) = .ok [(fn, url)]) := by
  refine ⟨?_, ?_, by simp, ?_, fun url fn => rfl⟩
  · show (match shardMatch filename with
      | some (pre, total) =>
        if total ≤ u32Max then
          Except.ok ((List.range' 1 total).map
            (fun i => (shardName pre total i, shardUrl repoId subfolder (shardName pre total i))))
        else Except.error ()
      | none => Except.ok [(filename, shardUrl repoId subfolder filename)]) = _
    simp only [hmatch]
    rw [if_pos hfit]
  · rw [List.map_map]
    have : (Prod.fst ∘ fun i =>
        (shardName pre total i, shardUrl repoId subfolder (shardName pre total i)))
        = shardName pre total := rfl
    rw [this]
    exact (List.nodup_range' 1 total).map (shardName_injective pre total)
  · intro i h1 h2
    rw [List.map_map]
    apply List.mem_map_of_mem
    rw [List.mem_range'_1]
    omega

/-- C5 counterexample to the claim as stated: the filename
`m-00001-of-4294967296.gguf` matches the shard regex with total
`4294967296 = 2^32`, but `parse::<u32>()` overflows, so the pull aborts
with an error and downloads nothing instead of the 2^32-element set the
claim requires. -/
theorem shard_expansion_overflow_counterexample :
    shardMatch "m-00001-of-4294967296.gguf" = some ("m", 4294967296)
    ∧ filesToDownload "o/r" "m-00001-of-4294967296.gguf" none none = .error () := by
  constructor
  · rfl
  · rfl


/-! ## Engine-holder load step (`chat_handler` main.rs lines 1318-1353,
`generate_handler` lines 1424-1458, `chat_with_session_handler` lines
1879-1908)

Each handler first decides whether a load is needed (`needs_load`: no
resident engine, or the resident engine's `model_name` differs from the
requested name).  If so and the name is nonempty it calls `load_model`;
on success `chat_handler`/`generate_handler` install the engine and, only
when `cfg.default_model` differs from the requested name, set it and call
`save_config`; on failure they return 404.
`chat_with_session_handler` installs the engine and updates the session
row's model, but never touches the config. -/

structure Engine where
  model_name : String
deriving DecidableEq

def needsLoad (inference : Option Engine) (modelName : String) : Bool :=
  match inference with
  | some i => i.model_name ≠ modelName
  | none => true

/-- The load-and-update-config step of `chat_handler`/`generate_handler`:
returns `(default_model, inference slot, whether save_config was called)`
or `.error` for the 404 path.  `loader` abstracts `load_model`. -/
def chatLoadStep (defaultModel : String) (inference : Option Engine)
    (modelName : String) (loader : String → Option Engine) :
    Except Unit (String × Option Engine × Bool) :=
  if needsLoad inference modelName ∧ modelName ≠ "" then
    match loader modelName with
    | some engine =>
      if defaultModel ≠ modelName then .ok (modelName, some engine, true)
      else .ok (defaultModel, some engine, false)
    | none => .error ()
  else .ok (defaultModel, inference, false)

/-- The load step of `chat_with_session_handler`: same gate, but on
success it updates the session row's model and leaves the config's
`default_model` untouched (no `save_config` call exists in this
handler). -/
def sessionLoadStep (defaultModel : String) (inference : Option Engine)
    (modelName : String) (loader : String → Option Engine)
    (st : SStore) (sessionId : String) (now : Nat) :
    Except Unit (String × Option Engine × SStore) :=
  if needsLoad inference modelName ∧ modelName ≠ "" then
    match loader modelName with
    | some engine =>
      .ok (defaultModel, some engine, st.updateSessionModel sessionId modelName now)
    | none => .error ()
  else .ok (defaultModel, inference, st)

/-- C8 counterexample to the claim as stated: (i) on `/api/chat` with the
requested model already resident, the config's `default_model` is not
updated to the requested model (it stays `"other"`), and (ii) on
`/api/chat/session` the config's `default_model` is not updated even when
an engine swap occurs. -/
theorem chat_default_model_counterexample :
    chatLoadStep "other" (some ⟨"m"⟩) "m" (fun _ => none)
      = .ok ("other", some ⟨"m"⟩, false)
    ∧ sessionLoadStep "other" none "m" (fun _ => some ⟨"m"⟩) SStore.empty "A" 1
      = .ok ("other", some ⟨"m"⟩, SStore.empty)
    ∧ ("other" : String) ≠ "m" := by
  refine ⟨rfl, rfl, by decide⟩

/-- C8 (amended): on `/api/chat` (and `/api/generate`) the config's
`default_model` is set to the requested model `m` and persisted exactly
when an engine load occurs (no resident engine or a resident engine with
a different name, `m` nonempty, and the load succeeds) and the current
default differs from `m`; when the resident engine already has name `m`,
or `m` is empty, config and engine slot are untouched; when the load
fails the handler returns an error without touching the config.
`/api/chat/session` never updates the config's `default_model` (on a swap
it updates the session row's model instead). -/
theorem chat_default_model_update_spec (defaultModel : String)
    (inference : Option Engine) (modelName : String)
    (loader : String → Option Engine) :
    (needsLoad inference modelName = false →
      chatLoadStep defaultModel inference modelName loader
        = .ok (defaultModel, inference, false))
    ∧ (modelName = "" →
      chatLoadStep defaultModel inference modelName loader
        = .ok (defaultModel, inference, false))
    ∧ (∀ engine, needsLoad inference modelName = true → modelName ≠ "" →
      loader modelName = some engine →
      chatLoadStep defaultModel inference modelName loader
        = .ok (modelName, some engine, decide (defaultModel ≠ modelName)))
    ∧ (needsLoad inference modelName = true → modelName ≠ "" →
      loader modelName = none →
      chatLoadStep defaultModel inference modelName loader = .error ())
    ∧ (∀ (st : SStore) (sessionId : String) (now : Nat)
        (r : String × Option Engine × SStore),
      sessionLoadStep defaultModel inference modelName loader st sessionId now = .ok r →
      r.1 = defaultModel)
    ∧ (∀ (st : SStore) (sessionId : String) (now : Nat) (engine : Engine),
      needsLoad inference modelName = true → modelName ≠ "" →
      loader modelName = some engine →
      sessionLoadStep defaultModel inference modelName loader st sessionId now
        = .ok (defaultModel, some engine, st.updateSessionModel sessionId modelName now)) := by
  refine ⟨?_, ?_, ?_, ?_, ?_, ?_⟩
  · intro h
    unfold chatLoadStep
    rw [if_neg (by simp [h])]
  · intro h
    unfold chatLoadStep
    rw [if_neg (by simp [h])]
  · intro engine hload hne hsome
    unfold chatLoadStep
    rw [if_pos ⟨hload, hne⟩]
    simp only [hsome]
    by_cases hd : defaultModel ≠ modelName
    · rw [if_pos hd]
      simp [hd]
    · rw [if_neg hd]
      push_neg at hd
      simp [hd]
  · intro hload hne hnone
    unfold chatLoadStep
    rw [if_pos ⟨hload, hne⟩]
    simp only [hnone]
  · intro st sessionId now r hr
    unfold sessionLoadStep at hr
    by_cases h : needsLoad inference modelName = true ∧ modelName ≠ ""
    · rw [if_pos h] at hr
      cases hl : loader modelName with
      | some engine =>
        rw [hl] at hr
        injection hr with hr
        rw [← hr]
      | none =>
        rw [hl] at hr
        cases hr
    · rw [if_neg h] at hr
      injection hr with hr
      rw [← hr]
  · intro st sessionId now engine hload hne hsome
    unfold sessionLoadStep
    rw [if_pos ⟨hload, hne⟩]
    simp only [hsome]


/-! ## DELETE /api/models/:name (`delete_model_handler`, main.rs lines
847-952)

The handler: (1) refuses config-declared names with 400; (2) computes
`storage_root = storage_dir.canonicalize().unwrap_or(storage_dir)`;
(3) if the registry has a row with the name, canonicalizes the stored
path and removes the file or directory only when the canonical path
starts with `storage_root`, then unconditionally removes the registry row
and returns 200 `removed`; (4) otherwise removes `storage_root/<name>`
if it is a directory, or the first regular file directly under
`storage_root` with extension `gguf` whose stem equals the name
case-insensitively; (5) otherwise 404.

The filesystem is an explicit oracle: `canon` is `Path::canonicalize`
(`none` = error), `isDir` is `Path::is_dir`, and `rootEntries` is the
`read_dir(storage_root)` listing as `(file_name, is_file)` pairs. -/

structure ModelEntry where
  name : String
  path : String
  repo_id : Option String
  filename : Option String
  source : Option String
deriving DecidableEq

structure Fs where
  canon : String → Option String
  isDir : String → Bool
  rootEntries : List (String × Bool)

/-- `PathBuf::join`: an absolute right operand replaces the left. -/
def pathJoin (a b : String) : String :=
  match b.data with
  | '/' :: _ => b
  | _ => a ++ "/" ++ b

def isPrefixList : List Char → List Char → Bool
  | [], _ => true
  | _ :: _, [] => false
  | a :: as, b :: bs => a = b && isPrefixList as bs

/-- `Path::starts_with` on canonical absolute paths: equal, or a
component-wise prefix (the root followed by a separator). -/
def pathStartsWith (p root : String) : Bool :=
  p = root || isPrefixList (root.data ++ ['/']) p.data

/-- Split a file name at its last dot: `some (before, after)`. -/
def lastDotSplit : List Char → Option (List Char × List Char)
  | [] => none
  | c :: rest =>
    match lastDotSplit rest with
    | some (b, a) => some (c :: b, a)
    | none => if c = '.' then some ([], rest) else none

/-- `Path::extension`: the part after the last dot of the file name,
none when there is no dot or the name starts with its only dot. -/
def extOf (name : String) : Option String :=
  match lastDotSplit name.data with
  | some (before, after) => if before = [] then none else some ⟨after⟩
  | none => none

/-- `Path::file_stem`: the part before the last dot, or the whole name. -/
def fileStem (name : String) : String :=
  match lastDotSplit name.data with
  | some (before, _) => if before = [] then name else ⟨before⟩
  | none => name

def asciiLower (c : Char) : Char :=
  if 'A' ≤ c ∧ c ≤ 'Z' then Char.ofNat (c.toNat + 32) else c

/-- `str::eq_ignore_ascii_case`. -/
def eqIgnoreAsciiCase (a b : String) : Bool :=
  a.data.map asciiLower = b.data.map asciiLower

inductive DelStatus where
  | badRequest
  | okRemoved
  | notFound
deriving DecidableEq

/-- The observable outcome of `delete_model_handler`: the HTTP status
class, the disk paths passed to `fs::remove_dir_all`/`fs::remove_file`,
and the registry contents afterwards. -/
structure DelResult where
  status : DelStatus
  removedPaths : List String
  registry : List ModelEntry
deriving DecidableEq

def deleteModelHandler (configModels : List String) (storageDir : String)
    (registry : List ModelEntry) (fs : Fs) (name : String) : DelResult :=
  if name ∈ configModels then
    ⟨.badRequest, [], registry⟩
  else
    let storageRoot := (fs.canon storageDir).getD storageDir
    match registry.find? (·.name = name) with
    | some entry =>
      let removed := match fs.canon entry.path with
        | some p => if pathStartsWith p storageRoot then [p] else []
        | none => []
      ⟨.okRemoved, removed, registry.filter (fun m => ¬ m.name = name)⟩
    | none =>
      let candidateDir := pathJoin storageRoot name
      if fs.isDir candidateDir then
        ⟨.okRemoved, [candidateDir], registry⟩
      else
        match fs.rootEntries.find? (fun e =>
            e.2 && (extOf e.1 = some "gguf") && eqIgnoreAsciiCase (fileStem e.1) name) with
        | some e => ⟨.okRemoved, [pathJoin storageRoot e.1], registry⟩
        | none => ⟨.notFound, [], registry⟩

/-- The filesystem of the spec's scenario 4: `storage_dir = /data/models`
exists and is its own canonical form; `/etc/passwd` exists and
canonicalizes to itself; nothing else resolves; there is no
`/data/models/evil` directory and no gguf file in the storage root. -/
def evilFs : Fs :=
  { canon := fun s =>
      if s = "/data/models" then some "/data/models"
      else if s = "/etc/passwd" then some "/etc/passwd"
      else none
    isDir := fun _ => false
    rootEntries := [] }

/-- C1 counterexample to the claim as stated, at the spec's own scenario
(registry row `evil → /etc/passwd`, `DELETE /api/models/evil`): the file
is indeed not touched, but the handler does NOT return not-found and does
NOT leave the registry row in place — it removes the row and returns 200
`removed`. -/
theorem delete_escaping_row_counterexample :
    deleteModelHandler [] "/data/models"
        [⟨"evil", "/etc/passwd", none, none, none⟩] evilFs "evil"
      = ⟨DelStatus.okRemoved, [], []⟩
    ∧ DelStatus.okRemoved ≠ DelStatus.notFound := by
  exact ⟨rfl, by decide⟩

/-- C1 (amended): for a DELETE whose name is not config-declared and has
a registry row whose stored path does not canonicalize to a location
under the canonicalized storage root, the handler touches no file on
disk, but it does remove the registry row (all rows with that name) and
returns 200 `removed`, not not-found. -/
theorem delete_escaping_row_spec (configModels : List String)
    (storageDir name : String) (registry : List ModelEntry) (fs : Fs)
    (entry : ModelEntry)
    (hcfg : name ∉ configModels)
    (hfind : registry.find? (·.name = name) = some entry)
    (hescape : ∀ p, fs.canon entry.path = some p →
      pathStartsWith p ((fs.canon storageDir).getD storageDir) = false) :
    deleteModelHandler configModels storageDir registry fs name
      = ⟨DelStatus.okRemoved, [], registry.filter (fun m => ¬ m.name = name)⟩ := by
  unfold deleteModelHandler
  rw [if_neg hcfg]
  simp only [hfind]
  cases hc : fs.canon entry.path with
  | none => rfl
  | some p =>
    show (⟨DelStatus.okRemoved,
        if pathStartsWith p ((fs.canon storageDir).getD storageDir) = true then [p] else [],
        registry.filter (fun m => ¬ m.name = name)⟩ : DelResult) = _
    rw [hescape p hc]
    rfl

/-- Witness for C1 (amended) at the scenario-4 input. -/
theorem delete_escaping_row_spec_witness :
    ("evil" ∉ ([] : List String))
    ∧ ([(⟨"evil", "/etc/passwd", none, none, none⟩ : ModelEntry)].find? (·.name = "evil")
        = some ⟨"evil", "/etc/passwd", none, none, none⟩)
    ∧ deleteModelHandler [] "/data/models"
        [⟨"evil", "/etc/passwd", none, none, none⟩] evilFs "evil"
      = ⟨DelStatus.okRemoved, [],
          [(⟨"evil", "/etc/passwd", none, none, none⟩ : ModelEntry)].filter
            (fun m => ¬ m.name = "evil")⟩ := by
  refine ⟨by decide, by rfl, ?_⟩
  exact delete_escaping_row_spec [] "/data/models" "evil"
    [⟨"evil", "/etc/passwd", none, none, none⟩] evilFs
    ⟨"evil", "/etc/passwd", none, none, none⟩
    (by decide) (by rfl)
    (fun p hp => by
      have : p = "/etc/passwd" := by
        have h2 : some "/etc/passwd" = some p := by
          calc some "/etc/passwd" = evilFs.canon "/etc/passwd" := by rfl
            _ = some p := hp
        injection h2 with h3
        exact h3.symm
      rw [this]
      rfl)

/-- The filesystem of the traversal input: `storage_dir = /data/models`
canonicalizes to itself; its parent is reachable as `/data/models/..`,
which is a directory and canonicalizes to `/data`. -/
def traversalFs : Fs :=
  { canon := fun s =>
      if s = "/data/models" then some "/data/models"
      else if s = "/data/models/.." then some "/data"
      else none
    isDir := fun s => s = "/data/models/.."
    rootEntries := [] }

/-- C2: the code violates the no-escape safety property.  For the request
`DELETE /api/models/..` (the `:name` path parameter decodes to `..`; any
name containing `..` or an absolute path behaves alike) with an empty
registry, the fallback branch joins the unsanitized name onto the storage
root without canonicalizing and calls `fs::remove_dir_all` on
`/data/models/..` — a directory whose canonical path `/data` lies outside
the canonicalized storage root `/data/models`. -/
theorem delete_path_traversal_code_bug :
    (deleteModelHandler [] "/data/models" [] traversalFs "..").removedPaths
      = ["/data/models/.."]
    ∧ (deleteModelHandler [] "/data/models" [] traversalFs "..").status
      = DelStatus.okRemoved
    ∧ traversalFs.canon "/data/models/.." = some "/data"
    ∧ pathStartsWith "/data" "/data/models" = false := by
  exact ⟨rfl, rfl, rfl, by decide⟩


/-! ## GET /api/models (`models_handler`, main.rs lines 1205-1300)

The listing is built in three phases over a `seen` set of names:
(1) every config-declared model is pushed with source `config` and its
name inserted into `seen`; (2) each registry entry whose name is unseen
is pushed with its stored source (default `registry`); (3) each
filesystem entry under `storage_dir` yields at most one candidate —
a directory with at least one `.gguf` file inside yields
`(dir_name, dir/first_gguf, discovered)`, a non-directory `.gguf` file
yields `(file_stem, path, discovered)` — pushed when unseen.  Phases 2
and 3 share the shape `dedupPush`. -/

structure ModelInfo where
  name : String
  path : String
  source : String
deriving DecidableEq

inductive FsEntry where
  | dir (dname : String) (subfiles : List String)
  | file (fname : String)
deriving DecidableEq

/-- A registry row as it appears in the listing
(`source: entry.source.unwrap_or_else(|| "registry")`). -/
def regRender (e : ModelEntry) : ModelInfo :=
  ⟨e.name, e.path, e.source.getD "registry"⟩

/-- The discovered-model candidate of one `read_dir(storage_dir)` entry:
directories contribute their first `.gguf` child (the loop breaks at the
first one), plain `.gguf` files contribute their stem. -/
def discCandidate (storage : String) : FsEntry → Option ModelInfo
  | .dir dname subs =>
    match subs.find? (fun f => extOf f = some "gguf") with
    | some f => some ⟨dname, storage ++ "/" ++ dname ++ "/" ++ f, "discovered"⟩
    | none => none
  | .file fname =>
    if extOf fname = some "gguf" then
      some ⟨fileStem fname, storage ++ "/" ++ fname, "discovered"⟩
    else none

/-- Push each candidate whose name is not in `seen`, first occurrence
wins (`if !seen.contains(name) { models.push(..); seen.insert(name); }`). -/
def dedupPush (acc : List ModelInfo) (seen : List String) :
    List ModelInfo → List ModelInfo × List String
  | [] => (acc, seen)
  | c :: rest =>
    if c.name ∈ seen then dedupPush acc seen rest
    else dedupPush (acc ++ [c]) (c.name :: seen) rest

def modelsHandler (cfg : List (String × String)) (reg : List ModelEntry)
    (storage : String) (fsEntries : List FsEntry) : List ModelInfo :=
  let acc1 := cfg.map (fun np => (⟨np.1, np.2, "config"⟩ : ModelInfo))
  let seen1 := cfg.map Prod.fst
  let p2 := dedupPush acc1 seen1 (reg.map regRender)
  (dedupPush p2.1 p2.2 (fsEntries.filterMap (discCandidate storage))).1

theorem dedupPush_prefix (cands : List ModelInfo) (acc : List ModelInfo)
    (seen : List String) : ∃ ext, (dedupPush acc seen cands).1 = acc ++ ext := by
  induction cands generalizing acc seen with
  | nil => exact ⟨[], by simp [dedupPush]⟩
  | cons c rest ih =>
    simp only [dedupPush]
    split
    · exact ih acc seen
    · obtain ⟨ext, hext⟩ := ih (acc ++ [c]) (c.name :: seen)
      exact ⟨c :: ext, by rw [hext]; simp⟩

theorem dedupPush_find?_some (cands : List ModelInfo) (acc : List ModelInfo)
    (seen : List String) (p : ModelInfo → Bool) (e : ModelInfo)
    (h : acc.find? p = some e) : (dedupPush acc seen cands).1.find? p = some e := by
  obtain ⟨ext, hext⟩ := dedupPush_prefix cands acc seen
  rw [hext, List.find?_append, h]
  rfl

theorem dedupPush_nodup (cands : List ModelInfo) (acc : List ModelInfo)
    (seen : List String) (hsub : ∀ e ∈ acc, e.name ∈ seen)
    (hnd : (acc.map (·.name)).Nodup) :
    ((dedupPush acc seen cands).1.map (·.name)).Nodup
    ∧ ∀ e ∈ (dedupPush acc seen cands).1, e.name ∈ (dedupPush acc seen cands).2 := by
  induction cands generalizing acc seen with
  | nil => exact ⟨hnd, fun e he => hsub e he⟩
  | cons c rest ih =>
    simp only [dedupPush]
    split
    · exact ih acc seen hsub hnd
    · rename_i hc
      apply ih (acc ++ [c]) (c.name :: seen)
      · intro e he
        rcases List.mem_append.mp he with he | he
        · exact List.mem_cons_of_mem _ (hsub e he)
        · simp only [List.mem_singleton] at he
          subst he
          exact List.mem_cons_self _ _
      · rw [List.map_append, List.nodup_append]
        refine ⟨hnd, by simp, ?_⟩
        intro a ha hb
        simp only [List.map_cons, List.map_nil, List.mem_singleton] at hb
        subst hb
        rcases List.mem_map.mp ha with ⟨e, he, hname⟩
        exact hc (hname ▸ hsub e he)

theorem dedupPush_find?_new (cands : List ModelInfo) (acc : List ModelInfo)
    (seen : List String) (n : String)
    (hacc : acc.find? (·.name = n) = none) (hseen : n ∉ seen) :
    (dedupPush acc seen cands).1.find? (·.name = n)
      = cands.find? (·.name = n) := by
  induction cands generalizing acc seen with
  | nil => exact hacc
  | cons c rest ih =>
    simp only [dedupPush]
    by_cases hc : c.name = n
    · rw [if_neg (fun hmem => hseen (hc ▸ hmem))]
      obtain ⟨ext, hext⟩ := dedupPush_prefix rest (acc ++ [c]) (c.name :: seen)
      rw [hext, List.find?_append, List.find?_append, hacc,
        List.find?_cons_of_pos _ (by simp [hc]), List.find?_cons_of_pos _ (by simp [hc])]
      rfl
    · rw [List.find?_cons_of_neg _ (by simp [hc])]
      split
      · exact ih acc seen hacc hseen
      · rename_i hmem
        apply ih (acc ++ [c]) (c.name :: seen)
        · rw [List.find?_append, hacc]
          show Option.or none (List.find? _ [c]) = none
          rw [List.find?_cons_of_neg _ (by simp [hc])]
          rfl
        · intro hmem2
          rcases List.mem_cons.mp hmem2 with h | h
          · exact hc h.symm
          · exact hseen h

theorem find?_config_map (cfg : List (String × String)) (n p : String)
    (hnd : (cfg.map Prod.fst).Nodup) (hmem : (n, p) ∈ cfg) :
    (cfg.map (fun np => (⟨np.1, np.2, "config"⟩ : ModelInfo))).find? (·.name = n)
      = some ⟨n, p, "config"⟩ := by
  induction cfg with
  | nil => simp at hmem
  | cons a rest ih =>
    rw [List.map_cons] at hnd ⊢
    have hndc := List.nodup_cons.mp hnd
    by_cases ha : a.1 = n
    · rw [List.find?_cons_of_pos _ (by simp [ha])]
      rcases List.mem_cons.mp hmem with h | h
      · rw [← h]
      · exfalso
        have hn : n ∈ rest.map Prod.fst := by
          have := List.mem_map_of_mem Prod.fst h
          simpa using this
        rw [ha] at hndc
        exact hndc.1 hn
    · rw [List.find?_cons_of_neg _ (by simp [ha])]
      apply ih hndc.2
      rcases List.mem_cons.mp hmem with h | h
      · exfalso
        exact ha (by rw [← h])
      · exact h

/-- C3: the catalog listing has pairwise-distinct names; it is the
config-declared entries (source `config`, config path), in order,
followed by the surviving registry entries followed by the surviving
discovered entries; the first occurrence of a name wins (a name declared
in config is returned with source `config` and the config path even when
the registry also has it, and a name absent from config resolves to its
first registry row).  Hypothesis: config model names are distinct
(config_models is a HashMap, so its keys are). -/
theorem models_listing_spec (cfg : List (String × String)) (reg : List ModelEntry)
    (storage : String) (fsEntries : List FsEntry)
    (hnodup : (cfg.map Prod.fst).Nodup) :
    ((modelsHandler cfg reg storage fsEntries).map (·.name)).Nodup
    ∧ (∃ rest, modelsHandler cfg reg storage fsEntries
        = cfg.map (fun np => (⟨np.1, np.2, "config"⟩ : ModelInfo)) ++ rest)
    ∧ (∀ n p, (n, p) ∈ cfg →
        (modelsHandler cfg reg storage fsEntries).find? (·.name = n)
          = some ⟨n, p, "config"⟩)
    ∧ (∀ n, n ∉ cfg.map Prod.fst → ∀ e, reg.find? (·.name = n) = some e →
        (modelsHandler cfg reg storage fsEntries).find? (·.name = n)
          = some (regRender e)) := by
  have hsub1 : ∀ e ∈ cfg.map (fun np => (⟨np.1, np.2, "config"⟩ : ModelInfo)),
      e.name ∈ cfg.map Prod.fst := by
    intro e he
    rcases List.mem_map.mp he with ⟨np, hnp, hmk⟩
    subst hmk
    exact List.mem_map_of_mem Prod.fst hnp
  have hnd1 : ((cfg.map (fun np => (⟨np.1, np.2, "config"⟩ : ModelInfo))).map
      (·.name)).Nodup := by
    rw [List.map_map]
    exact hnodup
  have h2 := dedupPush_nodup (reg.map regRender)
    (cfg.map (fun np => (⟨np.1, np.2, "config"⟩ : ModelInfo))) (cfg.map Prod.fst)
    hsub1 hnd1
  refine ⟨?_, ?_, ?_, ?_⟩
  · exact (dedupPush_nodup (fsEntries.filterMap (discCandidate storage))
      _ _ h2.2 h2.1).1
  · obtain ⟨ext2, hext2⟩ := dedupPush_prefix (reg.map regRender)
      (cfg.map (fun np => (⟨np.1, np.2, "config"⟩ : ModelInfo))) (cfg.map Prod.fst)
    obtain ⟨ext3, hext3⟩ := dedupPush_prefix (fsEntries.filterMap (discCandidate storage))
      (dedupPush (cfg.map (fun np => (⟨np.1, np.2, "config"⟩ : ModelInfo)))
        (cfg.map Prod.fst) (reg.map regRender)).1
      (dedupPush (cfg.map (fun np => (⟨np.1, np.2, "config"⟩ : ModelInfo)))
        (cfg.map Prod.fst) (reg.map regRender)).2
    refine ⟨ext2 ++ ext3, ?_⟩
    show (dedupPush _ _ (fsEntries.filterMap (discCandidate storage))).1 = _
    rw [hext3, hext2, List.append_assoc]
  · intro n p hmem
    apply dedupPush_find?_some
    apply dedupPush_find?_some
    exact find?_config_map cfg n p hnodup hmem
  · intro n hncfg e hfind
    apply dedupPush_find?_some
    have hacc1 : (cfg.map (fun np => (⟨np.1, np.2, "config"⟩ : ModelInfo))).find?
        (·.name = n) = none := by
      rw [List.find?_eq_none]
      intro x hx
      simp only [decide_eq_true_eq]
      intro hc
      exact hncfg (hc ▸ hsub1 x hx)
    rw [dedupPush_find?_new (reg.map regRender) _ _ n hacc1 hncfg]
    rw [List.find?_map]
    have hp : ((fun x => decide (x.name = n)) ∘ regRender) = fun x => decide (x.name = n) := by
      funext x
      rfl
    rw [hp, hfind]
    rfl

/-- Witness for C3: config declares `m1 → /opt/m1.gguf`; registry has
`m1 → /data/m1.gguf` and `m2 → /data/m2.gguf`; the storage root holds a
flat file `m3.gguf` (the spec's catalog-precedence scenario). -/
theorem models_listing_spec_witness :
    ((([("m1", "/opt/m1.gguf")] : List (String × String)).map Prod.fst).Nodup)
    ∧ modelsHandler [("m1", "/opt/m1.gguf")]
        [⟨"m1", "/data/m1.gguf", none, none, none⟩,
          ⟨"m2", "/data/m2.gguf", none, none, none⟩]
        "/data/models" [FsEntry.file "m3.gguf"]
        = [⟨"m1", "/opt/m1.gguf", "config"⟩, ⟨"m2", "/data/m2.gguf", "registry"⟩,
            ⟨"m3", "/data/models/m3.gguf", "discovered"⟩]
    ∧ ((modelsHandler [("m1", "/opt/m1.gguf")]
        [⟨"m1", "/data/m1.gguf", none, none, none⟩,
          ⟨"m2", "/data/m2.gguf", none, none, none⟩]
        "/data/models" [FsEntry.file "m3.gguf"]).map (·.name)).Nodup
    ∧ (modelsHandler [("m1", "/opt/m1.gguf")]
        [⟨"m1", "/data/m1.gguf", none, none, none⟩,
          ⟨"m2", "/data/m2.gguf", none, none, none⟩]
        "/data/models" [FsEntry.file "m3.gguf"]).find? (·.name = "m1")
        = some ⟨"m1", "/opt/m1.gguf", "config"⟩ := by
  refine ⟨by decide, by rfl, ?_, ?_⟩
  · exact (models_listing_spec [("m1", "/opt/m1.gguf")]
      [⟨"m1", "/data/m1.gguf", none, none, none⟩,
        ⟨"m2", "/data/m2.gguf", none, none, none⟩]
      "/data/models" [FsEntry.file "m3.gguf"] (by decide)).1
  · exact (models_listing_spec [("m1", "/opt/m1.gguf")]
      [⟨"m1", "/data/m1.gguf", none, none, none⟩,
        ⟨"m2", "/data/m2.gguf", none, none, none⟩]
      "/data/models" [FsEntry.file "m3.gguf"] (by decide)).2.2.1 "m1" "/opt/m1.gguf"
      (by simp)


/-- Witness for C7 at a concrete message list and raw prompt. -/
theorem chat_prompt_assembly_spec_witness :
    chatPrompt [⟨"user", "hi"⟩] = specChatPrompt [⟨"user", "hi"⟩]
    ∧ generatePromptPassed "abc" = "abc"
    ∧ chatPrompt [⟨"user", "hi"⟩] = chatPrompt [⟨"user", "hi"⟩] := by
  obtain ⟨h1, h2, h3⟩ := chat_prompt_assembly_spec [⟨"user", "hi"⟩]
  exact ⟨h1, h2 "abc", h3 [⟨"user", "hi"⟩] rfl⟩

/-- Witness for C5 (amended) at the spec's shard-pull scenario
(`part-00001-of-00003.gguf`). -/
theorem shard_expansion_spec_witness :
    shardMatch "part-00001-of-00003.gguf" = some ("part", 3)
    ∧ (3 : Nat) ≤ u32Max
    ∧ filesToDownload "o/r" "part-00001-of-00003.gguf" none none
        = .ok ((List.range' 1 3).map
            (fun i => (shardName "part" 3 i, shardUrl "o/r" none (shardName "part" 3 i))))
    ∧ (((List.range' 1 3).map
          (fun i => (shardName "part" 3 i, shardUrl "o/r" none (shardName "part" 3 i)))).map
        Prod.fst).Nodup := by
  have h := shard_expansion_spec "o/r" "part-00001-of-00003.gguf" none "part" 3
    (by rfl) (by decide)
  exact ⟨by rfl, by decide, h.1, h.2.1⟩

/-- Witness for C8 (amended): an engine swap from no resident engine to
model `"m"` with current default `"old"`, and the same swap through the
session-aware handler. -/
theorem chat_default_model_update_spec_witness :
    needsLoad none "m" = true
    ∧ ("m" : String) ≠ ""
    ∧ chatLoadStep "old" none "m" (fun s => if s = "m" then some ⟨"m"⟩ else none)
        = .ok ("m", some ⟨"m"⟩, decide (("old" : String) ≠ "m"))
    ∧ sessionLoadStep "old" none "m" (fun s => if s = "m" then some ⟨"m"⟩ else none)
        SStore.empty "A" 1
        = .ok ("old", some ⟨"m"⟩, SStore.empty.updateSessionModel "A" "m" 1) := by
  have h := chat_default_model_update_spec "old" none "m"
    (fun s => if s = "m" then some ⟨"m"⟩ else none)
  refine ⟨rfl, by decide, ?_, ?_⟩
  · exact h.2.2.1 ⟨"m"⟩ rfl (by decide) (by rfl)
  · exact h.2.2.2.2.2 SStore.empty "A" 1 ⟨"m"⟩ rfl (by decide) (by rfl)

end Aurora
